import Mathlib

/-
Verification of the stream-ingestion and object-lifecycle subsystem of the
myalpr repository, shallowly embedded in Lean 4.

The embedding covers:
  - src/analyze.py : analyze_tracked_object, get_crossing_frame
  - src/object_tracker.py : TrackedObject, ObjectTracker.update
  - src/ffmpeg_capture.py : the background read loop, isOpened, grab, retrieve

Python floats are modelled as rationals, wall-clock time as a rational
parameter passed to the stateful operations, and dictionaries as association
lists keyed by track id (resp. lists of keys for the HD-frame cache).
-/

set_option maxHeartbeats 1000000
set_option maxRecDepth 4000

namespace MyALPR

/-- A bounding box in center-size (xywh) format as used throughout the code. -/
structure Box where
  cx : ℚ
  cy : ℚ
  w : ℚ
  h : ℚ
deriving Repr, DecidableEq, Inhabited

/-- Left edge of a box: x - w / 2 (src/analyze.py, line 63). -/
def Box.leftEdge (b : Box) : ℚ := b.cx - b.w / 2

/-- TrackedObject state (src/object_tracker.py, lines 8-16).  The untyped
custom data dictionary is omitted: no code covered by the claims reads it. -/
structure TrackedObject where
  track_id : Nat
  first_seen : ℚ
  last_seen : ℚ
  frames_since_seen : Nat
  boxes : List Box
  class_ids : List Nat
  frame_ids : List Nat
deriving Repr, DecidableEq, Inhabited

/-- TrackedObject.duration (src/object_tracker.py, lines 45-47). -/
def TrackedObject.duration (o : TrackedObject) : ℚ := o.last_seen - o.first_seen

/-- Result of the action classification in analyze_tracked_object. -/
inductive Action where
  | unknown
  | arriving
  | departing
deriving Repr, DecidableEq

/-- The direction dictionary of the analyzer result (src/analyze.py, lines 90-95). -/
structure DirectionInfo where
  delta_x : ℚ
  delta_y : ℚ
  start_pos : ℚ × ℚ
  end_pos : ℚ × ℚ
deriving Repr, DecidableEq

/-- The dictionary returned by analyze_tracked_object.  In the short-history
branch the crossed_from_right key is absent, hence the Option. -/
structure AnalysisResult where
  action : Action
  crossed_at : Option ℚ
  direction : Option DirectionInfo
  crossed_from_right : Option Bool
deriving Repr, DecidableEq

/-- The crossing test for one adjacent pair of boxes (src/analyze.py,
lines 75 and 81; identically lines 133 and 135). -/
def crossCond (vertical_line : ℚ) (crossed_from_right : Bool) (prev cur : Box) : Bool :=
  if crossed_from_right then
    decide (prev.leftEdge > vertical_line) && decide (cur.leftEdge ≤ vertical_line)
  else
    decide (prev.leftEdge < vertical_line) && decide (cur.leftEdge ≥ vertical_line)

/-- The scan over adjacent pairs shared by both crossing loops
(src/analyze.py, lines 61-85 and lines 123-136): prev is the box at index
k - 1, the list holds the boxes from index k on, and the first index whose
pair satisfies crossCond is returned. -/
def findCrossAux (vertical_line : ℚ) (crossed_from_right : Bool) :
    Box → List Box → Nat → Option Nat
  | _, [], _ => none
  | prev, b :: bs, k =>
    if crossCond vertical_line crossed_from_right prev b then some k
    else findCrossAux vertical_line crossed_from_right b bs (k + 1)

/-- analyze_tracked_object (src/analyze.py, lines 4-97). -/
def analyze_tracked_object (o : TrackedObject) (frame_width frame_height : ℚ)
    (vertical_line_percent : ℚ := 3/4) : AnalysisResult :=
  match o.boxes with
  | [] => { action := .unknown, crossed_at := none, direction := none,
            crossed_from_right := none }
  | [_] => { action := .unknown, crossed_at := none, direction := none,
             crossed_from_right := none }
  | first_box :: rest =>
    let vertical_line := frame_width * vertical_line_percent
    let last_box := rest.getLastD first_box
    let delta_x := last_box.cx - first_box.cx
    let delta_y := last_box.cy - first_box.cy
    let action :=
      if delta_x < 0 ∧ delta_y > 0 then Action.arriving
      else if delta_x > 0 ∧ delta_y < 0 then Action.departing
      else if |delta_x| > |delta_y| then
        if delta_x > 0 then Action.departing else Action.arriving
      else
        if delta_y > 0 then Action.arriving else Action.departing
    let crossed_from_right := decide (first_box.leftEdge > vertical_line)
    let crossIdx := findCrossAux vertical_line crossed_from_right first_box rest 1
    let crossed_at := crossIdx.map (fun (i : Nat) =>
      o.first_seen + (i : ℚ) * (o.duration / ((rest.length + 1 : Nat) : ℚ)))
    { action := action
      crossed_at := crossed_at
      direction := some { delta_x := delta_x, delta_y := delta_y,
                          start_pos := (first_box.cx, first_box.cy),
                          end_pos := (last_box.cx, last_box.cy) }
      crossed_from_right := some crossed_from_right }

/-- get_crossing_frame (src/analyze.py, lines 100-138). -/
def get_crossing_frame (o : TrackedObject) (frame_width : ℚ)
    (vertical_line_percent : ℚ := 3/4) : Option Nat :=
  let vertical_line := frame_width * vertical_line_percent
  match o.boxes with
  | [] => none
  | [_] => none
  | first_box :: rest =>
    findCrossAux vertical_line (decide (first_box.leftEdge > vertical_line))
      first_box rest 1

/-- Written from the spec text: the crossing condition at index i of the box
list, for a given line position and starting side.  Starting from the right,
the left edge goes from strictly greater than the line to at-or-below it;
starting from the left, from strictly below to at-or-above. -/
def specCrossesAt (vertical_line : ℚ) (fromRight : Prop) (l : List Box) (i : Nat) : Prop :=
  (fromRight ∧ (l.getD (i - 1) default).leftEdge > vertical_line ∧
    (l.getD i default).leftEdge ≤ vertical_line) ∨
  (¬ fromRight ∧ (l.getD (i - 1) default).leftEdge < vertical_line ∧
    (l.getD i default).leftEdge ≥ vertical_line)

theorem crossCond_true_iff (L : ℚ) (R : Prop) [Decidable R] (prev cur : Box) :
    crossCond L (decide R) prev cur = true ↔
      ((R ∧ prev.leftEdge > L ∧ cur.leftEdge ≤ L) ∨
       (¬ R ∧ prev.leftEdge < L ∧ cur.leftEdge ≥ L)) := by
  by_cases h : R <;> simp [crossCond, h]

theorem findCrossAux_eq_some_iff (L : ℚ) (cfr : Bool) :
    ∀ (bs : List Box) (prev : Box) (k i : Nat),
    findCrossAux L cfr prev bs k = some i ↔
      ∃ j, j < bs.length ∧ i = k + j ∧
        crossCond L cfr ((prev :: bs).getD j default)
          ((prev :: bs).getD (j + 1) default) = true ∧
        ∀ m, m < j →
          crossCond L cfr ((prev :: bs).getD m default)
            ((prev :: bs).getD (m + 1) default) = false := by
  intro bs
  induction bs with
  | nil =>
    intro prev k i
    simp [findCrossAux]
  | cons b bs ih =>
    intro prev k i
    by_cases h : crossCond L cfr prev b = true
    · simp only [findCrossAux, h, if_true]
      constructor
      · intro hk
        injection hk with hk
        exact ⟨0, by simp, by omega, by simpa using h, by omega⟩
      · rintro ⟨j, hj, hi, hc, hm⟩
        cases j with
        | zero => simp [hi]
        | succ j =>
          have h0 := hm 0 (Nat.succ_pos j)
          simp only [List.getD_cons_zero, Nat.zero_add, List.getD_cons_succ] at h0
          rw [h] at h0
          exact absurd h0 (by simp)
    · have h' : crossCond L cfr prev b = false := by
        simpa using h
      simp only [findCrossAux, h', Bool.false_eq_true, if_false]
      rw [ih b (k + 1) i]
      constructor
      · rintro ⟨j, hj, hi, hc, hm⟩
        refine ⟨j + 1, by simpa using Nat.succ_lt_succ hj, by omega, by simpa using hc, ?_⟩
        intro m hm1
        cases m with
        | zero => simpa using h'
        | succ m =>
          have := hm m (by omega)
          simpa using this
      · rintro ⟨j, hj, hi, hc, hm⟩
        cases j with
        | zero =>
          simp only [List.getD_cons_zero, Nat.zero_add, List.getD_cons_succ] at hc
          rw [h'] at hc
          exact absurd hc (by simp)
        | succ j =>
          refine ⟨j, by simpa using hj, by omega, by simpa using hc, ?_⟩
          intro m hmj
          have := hm (m + 1) (by omega)
          simpa using this

theorem specCrossesAt_getD_iff (L : ℚ) (R : Prop) [Decidable R] (l : List Box) (j : Nat) :
    crossCond L (decide R) (l.getD j default) (l.getD (j + 1) default) = true ↔
      specCrossesAt L R l (j + 1) := by
  rw [crossCond_true_iff]
  simp [specCrossesAt, Nat.add_sub_cancel]

/-- The scan starting at the second box, phrased as: the result is the first
index of the full list, at least 1, whose adjacent pair crosses the line. -/
theorem findCross_first_iff (L : ℚ) (R : Prop) [Decidable R] (f : Box)
    (rest : List Box) (i : Nat) :
    findCrossAux L (decide R) f rest 1 = some i ↔
      (1 ≤ i ∧ i < (f :: rest).length ∧ specCrossesAt L R (f :: rest) i ∧
        ∀ m, 1 ≤ m → m < i → ¬ specCrossesAt L R (f :: rest) m) := by
  rw [findCrossAux_eq_some_iff]
  constructor
  · rintro ⟨j, hj, hi, hc, hm⟩
    subst hi
    refine ⟨by omega, by simp; omega, ?_, ?_⟩
    · rw [Nat.add_comm]
      exact (specCrossesAt_getD_iff L R (f :: rest) j).mp hc
    · intro m h1 hmi hspec
      have hcm := hm (m - 1) (by omega)
      have hct : crossCond L (decide R) ((f :: rest).getD (m - 1) default)
          ((f :: rest).getD (m - 1 + 1) default) = true := by
        rw [specCrossesAt_getD_iff]
        have hmm : m - 1 + 1 = m := by omega
        rw [hmm]
        exact hspec
      rw [hcm] at hct
      exact absurd hct (by simp)
  · rintro ⟨h1, hlen, hc, hm⟩
    refine ⟨i - 1, by simp at hlen; omega, by omega, ?_, ?_⟩
    · rw [specCrossesAt_getD_iff]
      have hmm : i - 1 + 1 = i := by omega
      rw [hmm]
      exact hc
    · intro m hmj
      have hs := hm (m + 1) (by omega) (by omega)
      rcases Bool.eq_false_or_eq_true (crossCond L (decide R)
          ((f :: rest).getD m default) ((f :: rest).getD (m + 1) default)) with hcc | hcc
      · exact absurd ((specCrossesAt_getD_iff L R (f :: rest) m).mp hcc) hs
      · exact hcc

/-- C1: for an object with at least 2 boxes and line L = frame_width times
vertical_line_percent, the analyzer sets crossed_from_right to true iff the
first left edge is strictly greater than L; get_crossing_frame returns some i
exactly at the first index i between 1 and n - 1 whose adjacent pair crosses
the line in the direction determined by the starting side, and none when no
pair crosses; and the analyzer reports the crossing timestamp as
first_seen + i * (last_seen - first_seen) / n at that same index. -/
theorem C1_crossing_detection (o : TrackedObject) (fw fh p : ℚ)
    (h2 : 2 ≤ o.boxes.length) :
    (analyze_tracked_object o fw fh p).crossed_from_right =
      some (decide ((o.boxes.headD default).leftEdge > fw * p)) ∧
    (∀ i, get_crossing_frame o fw p = some i ↔
      (1 ≤ i ∧ i < o.boxes.length ∧
        specCrossesAt (fw * p) ((o.boxes.headD default).leftEdge > fw * p) o.boxes i ∧
        ∀ m, 1 ≤ m → m < i →
          ¬ specCrossesAt (fw * p) ((o.boxes.headD default).leftEdge > fw * p) o.boxes m)) ∧
    (analyze_tracked_object o fw fh p).crossed_at =
      (get_crossing_frame o fw p).map (fun (i : Nat) =>
        o.first_seen + (i : ℚ) * ((o.last_seen - o.first_seen) / (o.boxes.length : ℚ))) := by
  rcases hb : o.boxes with _ | ⟨f, rest⟩
  · rw [hb] at h2; simp at h2
  rcases rest with _ | ⟨b, bs⟩
  · rw [hb] at h2; simp at h2
  have hhead : o.boxes.headD default = f := by rw [hb]; rfl
  have hget : get_crossing_frame o fw p =
      findCrossAux (fw * p) (decide (f.leftEdge > fw * p)) f (b :: bs) 1 := by
    simp [get_crossing_frame, hb]
  refine ⟨?_, ?_, ?_⟩
  · simp [analyze_tracked_object, hb]
  · intro i
    rw [hget]
    simp only [List.headD_cons]
    exact findCross_first_iff (fw * p) (f.leftEdge > fw * p) f (b :: bs) i
  · rw [hget]
    simp only [analyze_tracked_object, hb, TrackedObject.duration]
    congr 1

/-- Written from the claim text of C2: the reference classification of the
movement direction from the endpoint displacement. -/
def specClassify (delta_x delta_y : ℚ) : Action :=
  if delta_x < 0 ∧ delta_y > 0 then .arriving
  else if delta_x > 0 ∧ delta_y < 0 then .departing
  else if |delta_x| > |delta_y| then
    if delta_x > 0 then .departing else .arriving
  else
    if delta_y > 0 then .arriving else .departing

/-- C2: with at least 2 boxes the action equals the reference classification
on the endpoint deltas, is always arriving or departing, and is departing on
exact zero displacement; with fewer than 2 boxes it is unknown and the
crossing timestamp is absent. -/
theorem C2_direction_classification (o : TrackedObject) (fw fh p : ℚ) :
    (2 ≤ o.boxes.length →
      ((analyze_tracked_object o fw fh p).action =
        specClassify ((o.boxes.getLastD default).cx - (o.boxes.headD default).cx)
          ((o.boxes.getLastD default).cy - (o.boxes.headD default).cy) ∧
      ((analyze_tracked_object o fw fh p).action = Action.arriving ∨
        (analyze_tracked_object o fw fh p).action = Action.departing) ∧
      ((o.boxes.getLastD default).cx - (o.boxes.headD default).cx = 0 →
        (o.boxes.getLastD default).cy - (o.boxes.headD default).cy = 0 →
        (analyze_tracked_object o fw fh p).action = Action.departing))) ∧
    (o.boxes.length < 2 →
      ((analyze_tracked_object o fw fh p).action = Action.unknown ∧
        (analyze_tracked_object o fw fh p).crossed_at = none)) := by
  constructor
  · intro h2
    rcases hb : o.boxes with _ | ⟨f, rest⟩
    · rw [hb] at h2; simp at h2
    rcases rest with _ | ⟨b, bs⟩
    · rw [hb] at h2; simp at h2
    simp only [analyze_tracked_object, hb, specClassify, List.getLastD_cons,
      List.headD_cons]
    refine ⟨trivial, ?_, ?_⟩
    · split_ifs <;> simp
    · intro hx hy
      rw [hx, hy]
      norm_num
  · intro hlt
    rcases hb : o.boxes with _ | ⟨f, rest⟩
    · simp [analyze_tracked_object, hb]
    rcases rest with _ | ⟨b, bs⟩
    · simp [analyze_tracked_object, hb]
    · exact absurd hlt (by simp [hb])

/-- C9: the analyzer functions read only the boxes, first_seen and last_seen
fields of the tracked object and mutate nothing, so any two objects agreeing
on those fields give equal analysis results; in particular two successive
calls on the same unmodified object agree. -/
theorem C9_analyzer_reads_only_history (o o' : TrackedObject) (fw fh p : ℚ)
    (hb : o.boxes = o'.boxes) (hf : o.first_seen = o'.first_seen)
    (hl : o.last_seen = o'.last_seen) :
    analyze_tracked_object o fw fh p = analyze_tracked_object o' fw fh p ∧
    get_crossing_frame o fw p = get_crossing_frame o' fw p := by
  constructor
  · rw [analyze_tracked_object.eq_def, analyze_tracked_object.eq_def]
    simp only [TrackedObject.duration, hb, hf, hl]
  · rw [get_crossing_frame.eq_def, get_crossing_frame.eq_def]
    simp only [hb]

/-- C10: get_crossing_frame only ever returns none or an index i with
1 <= i <= n - 1 where n is the number of boxes; such an index is never 0 and,
whenever the frame id sequence has the same length as the box sequence, it is
a valid index into the frame id sequence as well. -/
theorem C10_crossing_index_in_range (o : TrackedObject) (fw p : ℚ) (i : Nat)
    (h : get_crossing_frame o fw p = some i) :
    1 ≤ i ∧ i ≤ o.boxes.length - 1 ∧
    (o.frame_ids.length = o.boxes.length → i < o.frame_ids.length) := by
  rcases hb : o.boxes with _ | ⟨f, rest⟩
  · simp [get_crossing_frame, hb] at h
  rcases rest with _ | ⟨b, bs⟩
  · simp [get_crossing_frame, hb] at h
  · simp only [get_crossing_frame, hb] at h
    rw [findCross_first_iff (fw * p) (f.leftEdge > fw * p) f (b :: bs) i] at h
    obtain ⟨h1, hlen, -, -⟩ := h
    simp only [List.length_cons] at hlen ⊢
    refine ⟨h1, by omega, ?_⟩
    intro he
    omega

/-- The scenario object of claims C1 and C10: left edges 800 and 700 (width
0) over 2 samples, tracked from time 0 to time 10. -/
def oC1 : TrackedObject :=
  { track_id := 1, first_seen := 0, last_seen := 10, frames_since_seen := 0,
    boxes := [{ cx := 800, cy := 0, w := 0, h := 0 },
              { cx := 700, cy := 0, w := 0, h := 0 }],
    class_ids := [2, 2], frame_ids := [1, 2] }

/-- C1 witness: with frame width 1000 and the line at 75 percent (750), the
scenario object crosses at index 1 coming from the right, and the
interpolated timestamp is 0 + 1 * (10 / 2) = 5. -/
theorem C1_crossing_detection_witness :
    2 ≤ oC1.boxes.length ∧
    (analyze_tracked_object oC1 1000 500 (3/4)).crossed_from_right = some true ∧
    get_crossing_frame oC1 1000 (3/4) = some 1 ∧
    (analyze_tracked_object oC1 1000 500 (3/4)).crossed_at = some 5 := by
  have h := C1_crossing_detection oC1 1000 500 (3/4) (by simp [oC1])
  have hg : get_crossing_frame oC1 1000 (3/4) = some 1 := by
    apply (h.2.1 1).mpr
    refine ⟨le_refl 1, by simp [oC1], ?_, by omega⟩
    left
    norm_num [oC1, Box.leftEdge]
  refine ⟨by simp [oC1], ?_, hg, ?_⟩
  · rw [h.1]
    norm_num [oC1, Box.leftEdge]
  · rw [h.2.2, hg]
    norm_num [oC1]

/-- The scenario object of claim C2: positions (100,50) to (60,90) over 2
samples. -/
def oC2 : TrackedObject :=
  { track_id := 1, first_seen := 0, last_seen := 10, frames_since_seen := 0,
    boxes := [{ cx := 100, cy := 50, w := 0, h := 0 },
              { cx := 60, cy := 90, w := 0, h := 0 }],
    class_ids := [2, 2], frame_ids := [1, 2] }

/-- C2 witness: the scenario object moving from (100,50) to (60,90) is
classified as arriving. -/
theorem C2_direction_classification_witness :
    (analyze_tracked_object oC2 640 480 (3/4)).action = Action.arriving := by
  have h := (C2_direction_classification oC2 640 480 (3/4)).1 (by simp [oC2])
  rw [h.1]
  norm_num [oC2, specClassify]

/-- Two objects with the same box history and timestamps but different track
ids, class histories, frame ids and staleness counters. -/
def oC9a : TrackedObject :=
  { track_id := 1, first_seen := 0, last_seen := 10, frames_since_seen := 0,
    boxes := [{ cx := 800, cy := 0, w := 0, h := 0 },
              { cx := 700, cy := 0, w := 0, h := 0 }],
    class_ids := [2, 2], frame_ids := [1, 2] }

def oC9b : TrackedObject :=
  { track_id := 9, first_seen := 0, last_seen := 10, frames_since_seen := 7,
    boxes := [{ cx := 800, cy := 0, w := 0, h := 0 },
              { cx := 700, cy := 0, w := 0, h := 0 }],
    class_ids := [5], frame_ids := [] }

/-- C9 witness: the analyzer gives the same result on two objects that agree
only on boxes, first_seen and last_seen. -/
theorem C9_analyzer_reads_only_history_witness :
    analyze_tracked_object oC9a 1000 500 (3/4) =
      analyze_tracked_object oC9b 1000 500 (3/4) ∧
    get_crossing_frame oC9a 1000 (3/4) = get_crossing_frame oC9b 1000 (3/4) :=
  C9_analyzer_reads_only_history oC9a oC9b 1000 500 (3/4) rfl rfl rfl

/-- C10 witness: on the crossing scenario object the returned index 1
satisfies all the bounds. -/
theorem C10_crossing_index_in_range_witness :
    get_crossing_frame oC1 1000 (3/4) = some 1 ∧
    (1 ≤ 1 ∧ 1 ≤ oC1.boxes.length - 1 ∧
      (oC1.frame_ids.length = oC1.boxes.length → 1 < oC1.frame_ids.length)) := by
  have hg : get_crossing_frame oC1 1000 (3/4) = some 1 := by
    simp [get_crossing_frame, oC1, findCrossAux, crossCond, Box.leftEdge]
    norm_num
  exact ⟨hg, C10_crossing_index_in_range oC1 1000 (3/4) 1 hg⟩

/-- One detection handed to ObjectTracker.update: bounding box, track id and
class id, as unpacked from the YOLO result (src/object_tracker.py,
lines 100-106). -/
structure Detection where
  box : Box
  track_id : Nat
  cls : Nat
deriving Repr, DecidableEq

/-- TrackedObject constructor (src/object_tracker.py, lines 8-16): the frame
id list starts empty while the box and class lists start with one element. -/
def TrackedObject.init (now : ℚ) (track_id : Nat) (class_id : Nat) (box : Box) :
    TrackedObject :=
  { track_id := track_id, first_seen := now, last_seen := now,
    frames_since_seen := 0, boxes := [box], class_ids := [class_id],
    frame_ids := [] }

/-- TrackedObject.update (src/object_tracker.py, lines 18-24). -/
def TrackedObject.update (o : TrackedObject) (box : Box) (class_id : Nat)
    (frame_id : Nat) (now : ℚ) : TrackedObject :=
  { o with
    last_seen := now
    frames_since_seen := 0
    boxes := o.boxes ++ [box]
    class_ids := o.class_ids ++ [class_id]
    frame_ids := o.frame_ids ++ [frame_id] }

/-- TrackedObject.get_class_percentage (src/object_tracker.py, lines 34-39). -/
def TrackedObject.get_class_percentage (o : TrackedObject) (target : Nat) : ℚ :=
  if o.class_ids = [] then 0
  else ((o.class_ids.count target : ℚ) / (o.class_ids.length : ℚ)) * 100

/-- TrackedObject.mark_not_seen (src/object_tracker.py, lines 41-43). -/
def TrackedObject.mark_not_seen (o : TrackedObject) : TrackedObject :=
  { o with frames_since_seen := o.frames_since_seen + 1 }

/-- ObjectTracker state (src/object_tracker.py, lines 53-70).  The eviction
callback is modelled by its presence flag together with the notified list
returned from update; the HD frame cache is modelled by its key list, the
frame payloads playing no role in the claims. -/
structure ObjectTracker where
  target_class_ids : List Nat
  frames_before_purge : Nat
  has_callback : Bool
  min_class_percentage : ℚ
  tracked_objects : List (Nat × TrackedObject)
  current_frame : Nat
  hd_frames : List Nat
deriving Repr, DecidableEq

/-- ObjectTracker constructor (src/object_tracker.py, lines 53-70). -/
def ObjectTracker.init (class_ids : List Nat) (frames_before_purge : Nat)
    (has_callback : Bool) (min_class_percentage : ℚ) : ObjectTracker :=
  { target_class_ids := class_ids, frames_before_purge := frames_before_purge,
    has_callback := has_callback, min_class_percentage := min_class_percentage,
    tracked_objects := [], current_frame := 0, hd_frames := [] }

/-- One iteration of the detection-processing loop of update
(src/object_tracker.py, lines 106-116): the detection either updates the
existing entry with its track id or appends a fresh object whose frame id
list immediately receives the current frame id (line 115). -/
def applyDetection (frame : Nat) (now : ℚ) (tr : List (Nat × TrackedObject))
    (d : Detection) : List (Nat × TrackedObject) :=
  if tr.any (fun e => e.1 == d.track_id) then
    tr.map (fun e =>
      if e.1 == d.track_id then (e.1, e.2.update d.box d.cls frame now) else e)
  else
    tr ++ [(d.track_id,
      let obj := TrackedObject.init now d.track_id d.cls d.box
      { obj with frame_ids := obj.frame_ids ++ [frame] })]

/-- The detection-processing loop of update (src/object_tracker.py,
lines 105-116). -/
def processDetections (tracked : List (Nat × TrackedObject))
    (dets : List Detection) (frame : Nat) (now : ℚ) : List (Nat × TrackedObject) :=
  dets.foldl (applyDetection frame now) tracked

/-- The sum of per-class percentages used by the purge filter
(src/object_tracker.py, lines 131-133). -/
def totalTargetPercentage (targets : List Nat) (o : TrackedObject) : ℚ :=
  (targets.map (fun c => o.get_class_percentage c)).sum

/-- What one call of ObjectTracker.update produces: the new tracker state,
the live list it returns, the popped entries, and among those the entries
handed to the eviction callback resp. silently dropped by the class filter
(src/object_tracker.py, lines 118-143).  With no callback registered the
popped objects are discarded with no notification at all. -/
structure UpdateResult where
  tracker : ObjectTracker
  live : List TrackedObject
  purged : List (Nat × TrackedObject)
  notified : List (Nat × TrackedObject)
  droppedByFilter : List (Nat × TrackedObject)
deriving Repr, DecidableEq

/-- ObjectTracker.update (src/object_tracker.py, lines 81-143). -/
def ObjectTracker.update (t : ObjectTracker) (dets : List Detection)
    (hd_frame : Bool) (now : ℚ) : UpdateResult :=
  let frame := t.current_frame + 1
  let seen := dets.map (fun d => d.track_id)
  let hd0 := if hd_frame then t.hd_frames ++ [frame] else t.hd_frames
  let tracked1 := processDetections t.tracked_objects dets frame now
  let tracked2 := tracked1.map (fun e =>
    if seen.contains e.1 then e else (e.1, e.2.mark_not_seen))
  let purged := tracked2.filter (fun e =>
    !(seen.contains e.1) && decide (t.frames_before_purge ≤ e.2.frames_since_seen))
  let survivors := tracked2.filter (fun e =>
    seen.contains e.1 || decide (e.2.frames_since_seen < t.frames_before_purge))
  let notified := if t.has_callback then
      purged.filter (fun e =>
        decide (t.min_class_percentage ≤ totalTargetPercentage t.target_class_ids e.2))
    else []
  let dropped := if t.has_callback then
      purged.filter (fun e =>
        decide (totalTargetPercentage t.target_class_ids e.2 < t.min_class_percentage))
    else []
  let hd1 := hd0.filter (fun fid =>
    survivors.any (fun e => e.2.frame_ids.contains fid))
  { tracker := { t with
      tracked_objects := survivors
      current_frame := frame
      hd_frames := hd1 }
    live := survivors.map (fun e => e.2)
    purged := purged
    notified := notified
    droppedByFilter := dropped }

/-- The input of one update cycle: the detections of that frame, whether an
HD frame is supplied, and the wall-clock time of the cycle. -/
structure UpdateInput where
  dets : List Detection
  hd : Bool
  now : ℚ
deriving Repr, DecidableEq

/-- A sequence of update calls. -/
def ObjectTracker.runUpdates (t : ObjectTracker) (steps : List UpdateInput) :
    ObjectTracker :=
  steps.foldl (fun tr s => (tr.update s.dets s.hd s.now).tracker) t

/-- Dictionary lookup on the ledger: the object stored under a track id. -/
def ObjectTracker.findObj (t : ObjectTracker) (id : Nat) : Option TrackedObject :=
  (t.tracked_objects.find? (fun e => e.1 == id)).map (fun e => e.2)

/-- The parallel-lengths invariant of a tracked object. -/
def lensOk (o : TrackedObject) : Prop :=
  o.boxes.length = o.class_ids.length ∧ o.class_ids.length = o.frame_ids.length

theorem lensOk_update (o : TrackedObject) (box : Box) (cls fid : Nat) (now : ℚ)
    (h : lensOk o) : lensOk (o.update box cls fid now) := by
  obtain ⟨h1, h2⟩ := h
  simp [lensOk, TrackedObject.update, h1, h2]

theorem lensOk_mark_not_seen (o : TrackedObject) (h : lensOk o) :
    lensOk o.mark_not_seen := by
  simpa [lensOk, TrackedObject.mark_not_seen] using h

theorem applyDetection_lensOk (frame : Nat) (now : ℚ)
    (tr : List (Nat × TrackedObject)) (d : Detection)
    (h : ∀ e ∈ tr, lensOk e.2) : ∀ e ∈ applyDetection frame now tr d, lensOk e.2 := by
  intro e he
  rw [applyDetection] at he
  by_cases hex : tr.any (fun e => e.1 == d.track_id) = true
  · rw [if_pos hex] at he
    rw [List.mem_map] at he
    obtain ⟨a, ha, hae⟩ := he
    subst hae
    by_cases hk : (a.1 == d.track_id) = true
    · rw [if_pos hk]
      exact lensOk_update _ _ _ _ _ (h a ha)
    · rw [if_neg hk]
      exact h a ha
  · rw [if_neg hex] at he
    rw [List.mem_append] at he
    rcases he with he | he
    · exact h e he
    · simp only [List.mem_singleton] at he
      subst he
      simp [lensOk, TrackedObject.init]

theorem processDetections_lensOk (dets : List Detection) :
    ∀ (tracked : List (Nat × TrackedObject)) (frame : Nat) (now : ℚ),
    (∀ e ∈ tracked, lensOk e.2) →
    ∀ e ∈ processDetections tracked dets frame now, lensOk e.2 := by
  induction dets with
  | nil =>
    intro tracked frame now h e he
    simpa [processDetections] using h e (by simpa [processDetections] using he)
  | cons d ds ih =>
    intro tracked frame now h e he
    rw [processDetections, List.foldl_cons] at he
    exact ih _ frame now (applyDetection_lensOk frame now tracked d h) e
      (by rw [processDetections]; exact he)

theorem update_lensOk (t : ObjectTracker) (dets : List Detection) (hd : Bool)
    (now : ℚ) (h : ∀ e ∈ t.tracked_objects, lensOk e.2) :
    ∀ e ∈ (t.update dets hd now).tracker.tracked_objects, lensOk e.2 := by
  intro e he
  simp only [ObjectTracker.update] at he
  rw [List.mem_filter] at he
  obtain ⟨he, -⟩ := he
  rw [List.mem_map] at he
  obtain ⟨a, ha, hae⟩ := he
  have hal : lensOk a.2 :=
    processDetections_lensOk dets t.tracked_objects _ now h a ha
  subst hae
  by_cases hs : (dets.map (fun d => d.track_id)).contains a.1 = true
  · rw [if_pos hs]
    exact hal
  · rw [if_neg hs]
    exact lensOk_mark_not_seen _ hal

theorem runUpdates_lensOk (steps : List UpdateInput) :
    ∀ (t : ObjectTracker), (∀ e ∈ t.tracked_objects, lensOk e.2) →
    ∀ e ∈ (t.runUpdates steps).tracked_objects, lensOk e.2 := by
  induction steps with
  | nil => intro t h e he; exact h e (by simpa [ObjectTracker.runUpdates] using he)
  | cons s ss ih =>
    intro t h e he
    rw [ObjectTracker.runUpdates, List.foldl_cons] at he
    exact ih _ (update_lensOk t s.dets s.hd s.now h) e
      (by rw [ObjectTracker.runUpdates]; exact he)

/-- C5: after any sequence of update calls starting from a fresh tracker,
every live object has box, class id and frame id sequences of equal
length. -/
theorem C5_parallel_lengths (class_ids : List Nat) (fbp : Nat) (hc : Bool)
    (mcp : ℚ) (steps : List UpdateInput) :
    ∀ e ∈ ((ObjectTracker.init class_ids fbp hc mcp).runUpdates
      steps).tracked_objects,
      e.2.boxes.length = e.2.class_ids.length ∧
      e.2.class_ids.length = e.2.frame_ids.length := by
  intro e he
  exact runUpdates_lensOk steps _ (by simp [ObjectTracker.init]) e he

/-- C6: after any update call, every key of the HD frame cache is referenced
by the frame id list of at least one currently-live object. -/
theorem C6_hd_cache_subset (t : ObjectTracker) (dets : List Detection)
    (hd : Bool) (now : ℚ) :
    ∀ fid ∈ (t.update dets hd now).tracker.hd_frames,
      ∃ e ∈ (t.update dets hd now).tracker.tracked_objects,
        fid ∈ e.2.frame_ids := by
  intro fid hfid
  simp only [ObjectTracker.update] at hfid ⊢
  rw [List.mem_filter] at hfid
  obtain ⟨-, hany⟩ := hfid
  rw [List.any_eq_true] at hany
  obtain ⟨e, he, hc⟩ := hany
  exact ⟨e, he, by simpa using hc⟩

/-- A small concrete detection cycle used by the ledger witnesses. -/
def boxW : Box := { cx := 10, cy := 10, w := 4, h := 4 }

def stepW : UpdateInput :=
  { dets := [{ box := boxW, track_id := 7, cls := 2 }], hd := true, now := 0 }

def objW : TrackedObject :=
  { track_id := 7, first_seen := 0, last_seen := 0, frames_since_seen := 0,
    boxes := [boxW], class_ids := [2], frame_ids := [1] }

/-- C5 witness: after one concrete update cycle the single live object has
all three sequences of length 1. -/
theorem C5_parallel_lengths_witness :
    (7, objW) ∈ ((ObjectTracker.init [2] 2 false 50).runUpdates
      [stepW]).tracked_objects ∧
    (objW.boxes.length = objW.class_ids.length ∧
      objW.class_ids.length = objW.frame_ids.length) := by
  have hm : (7, objW) ∈ ((ObjectTracker.init [2] 2 false 50).runUpdates
      [stepW]).tracked_objects := by decide
  exact ⟨hm, C5_parallel_lengths [2] 2 false 50 [stepW] (7, objW) hm⟩

/-- C6 witness: after one concrete update cycle the cached frame id 1 is
referenced by the live object created in that cycle. -/
theorem C6_hd_cache_subset_witness :
    1 ∈ ((ObjectTracker.init [2] 2 false 50).update
      [{ box := boxW, track_id := 7, cls := 2 }] true 0).tracker.hd_frames ∧
    ∃ e ∈ ((ObjectTracker.init [2] 2 false 50).update
      [{ box := boxW, track_id := 7, cls := 2 }] true 0).tracker.tracked_objects,
      1 ∈ e.2.frame_ids := by
  have hm : 1 ∈ ((ObjectTracker.init [2] 2 false 50).update
      [{ box := boxW, track_id := 7, cls := 2 }] true 0).tracker.hd_frames := by
    decide
  exact ⟨hm, C6_hd_cache_subset (ObjectTracker.init [2] 2 false 50)
    [{ box := boxW, track_id := 7, cls := 2 }] true 0 1 hm⟩

theorem find?_eq_head?_filter {α : Type} (p : α → Bool) (l : List α) :
    l.find? p = (l.filter p).head? := by
  induction l with
  | nil => rfl
  | cons a l ih =>
    by_cases h : p a = true
    · rw [List.find?_cons_of_pos _ h, List.filter_cons_of_pos h]
      rfl
    · rw [List.find?_cons_of_neg _ (by simpa using h),
        List.filter_cons_of_neg (by simpa using h), ih]

theorem map_id_on {α : Type} (f : α → α) :
    ∀ (l : List α), (∀ e ∈ l, f e = e) → l.map f = l := by
  intro l
  induction l with
  | nil => intro _; rfl
  | cons a l ih =>
    intro h
    rw [List.map_cons, h a (by simp), ih (fun e he => h e (by simp [he]))]

theorem filter_key_map_keyfix (id : Nat) (f : Nat × TrackedObject → Nat × TrackedObject)
    (hk : ∀ e, (f e).1 = e.1) :
    ∀ (l : List (Nat × TrackedObject)),
    (l.map f).filter (fun e => e.1 == id) = (l.filter (fun e => e.1 == id)).map f := by
  intro l
  induction l with
  | nil => rfl
  | cons a l ih =>
    simp only [List.map_cons, List.filter_cons, hk a]
    by_cases h : (a.1 == id) = true
    · simp only [h, if_true, List.map_cons, ih]
    · simp only [h, Bool.false_eq_true, if_false, ih]

theorem map_fst_keyfix (f : Nat × TrackedObject → Nat × TrackedObject)
    (hk : ∀ e, (f e).1 = e.1) :
    ∀ (l : List (Nat × TrackedObject)), (l.map f).map Prod.fst = l.map Prod.fst := by
  intro l
  induction l with
  | nil => rfl
  | cons a l ih => simp only [List.map_cons, hk a, ih]

theorem applyDetection_filter_ne (frame : Nat) (now : ℚ)
    (tr : List (Nat × TrackedObject)) (d : Detection) (id : Nat)
    (hne : id ≠ d.track_id) :
    (applyDetection frame now tr d).filter (fun e => e.1 == id) =
      tr.filter (fun e => e.1 == id) := by
  rw [applyDetection]
  by_cases hex : tr.any (fun e => e.1 == d.track_id) = true
  · rw [if_pos hex,
      filter_key_map_keyfix id _ (fun e => by by_cases h : (e.1 == d.track_id) = true
        <;> simp [h])]
    apply map_id_on
    intro e he
    rw [List.mem_filter] at he
    have : e.1 = id := by simpa using he.2
    have : (e.1 == d.track_id) = false := by
      simp [this]
      exact hne
    rw [if_neg (by simp [this])]
  · rw [if_neg hex, List.filter_append]
    have : (d.track_id == id) = false := by
      simp
      exact fun h => hne h.symm
    simp [this]

theorem processDetections_filter_not_mem (dets : List Detection) :
    ∀ (tr : List (Nat × TrackedObject)) (frame : Nat) (now : ℚ) (id : Nat),
    id ∉ dets.map (fun d => d.track_id) →
    (processDetections tr dets frame now).filter (fun e => e.1 == id) =
      tr.filter (fun e => e.1 == id) := by
  induction dets with
  | nil => intro tr frame now id _; rfl
  | cons d ds ih =>
    intro tr frame now id hid
    rw [List.map_cons, List.mem_cons] at hid
    push_neg at hid
    rw [processDetections, List.foldl_cons]
    rw [show ds.foldl (applyDetection frame now) (applyDetection frame now tr d) =
      processDetections (applyDetection frame now tr d) ds frame now from rfl]
    rw [ih _ frame now id hid.2]
    exact applyDetection_filter_ne frame now tr d id hid.1

theorem applyDetection_fss (frame : Nat) (now : ℚ)
    (tr : List (Nat × TrackedObject)) (d : Detection) :
    ∀ e ∈ applyDetection frame now tr d, e.1 = d.track_id →
      e.2.frames_since_seen = 0 := by
  intro e he hk
  rw [applyDetection] at he
  by_cases hex : tr.any (fun e => e.1 == d.track_id) = true
  · rw [if_pos hex] at he
    rw [List.mem_map] at he
    obtain ⟨a, ha, hae⟩ := he
    by_cases hak : (a.1 == d.track_id) = true
    · rw [if_pos hak] at hae
      rw [← hae]
      simp [TrackedObject.update]
    · rw [if_neg hak] at hae
      subst hae
      exact absurd (by simpa using hk) (by simpa using hak)
  · rw [if_neg hex] at he
    rw [List.mem_append] at he
    rcases he with he | he
    · rw [List.any_eq_true] at hex
      push_neg at hex
      exact absurd (by simpa using hk) (by simpa using hex e he)
    · simp only [List.mem_singleton] at he
      subst he
      simp [TrackedObject.init]

theorem processDetections_fss (dets : List Detection) :
    ∀ (tr : List (Nat × TrackedObject)) (frame : Nat) (now : ℚ) e,
    e ∈ processDetections tr dets frame now →
    e.1 ∈ dets.map (fun d => d.track_id) → e.2.frames_since_seen = 0 := by
  induction dets with
  | nil => intro tr frame now e _ hk; simp at hk
  | cons d ds ih =>
    intro tr frame now e he hk
    rw [processDetections, List.foldl_cons] at he
    rw [show ds.foldl (applyDetection frame now) (applyDetection frame now tr d) =
      processDetections (applyDetection frame now tr d) ds frame now from rfl] at he
    by_cases hin : e.1 ∈ ds.map (fun d => d.track_id)
    · exact ih _ frame now e he hin
    · have hkd : e.1 = d.track_id := by
        rw [List.map_cons, List.mem_cons] at hk
        tauto
      have hfil := processDetections_filter_not_mem ds
        (applyDetection frame now tr d) frame now e.1 hin
      have hmem : e ∈ (processDetections (applyDetection frame now tr d) ds
          frame now).filter (fun x => x.1 == e.1) :=
        List.mem_filter.mpr ⟨he, by simp⟩
      rw [hfil] at hmem
      exact applyDetection_fss frame now tr d e (List.mem_filter.mp hmem).1 hkd

theorem applyDetection_keys_nodup (frame : Nat) (now : ℚ)
    (tr : List (Nat × TrackedObject)) (d : Detection)
    (h : (tr.map Prod.fst).Nodup) :
    ((applyDetection frame now tr d).map Prod.fst).Nodup := by
  rw [applyDetection]
  by_cases hex : tr.any (fun e => e.1 == d.track_id) = true
  · rw [if_pos hex,
      map_fst_keyfix _ (fun e => by by_cases hk : (e.1 == d.track_id) = true
        <;> simp [hk])]
    exact h
  · rw [if_neg hex, List.map_append]
    rw [List.nodup_append]
    refine ⟨h, List.nodup_singleton _, ?_⟩
    intro a ha hb
    simp only [List.map_cons, List.map_nil, List.mem_singleton] at hb
    subst hb
    rw [List.mem_map] at ha
    obtain ⟨e, he, hek⟩ := ha
    rw [List.any_eq_true] at hex
    push_neg at hex
    exact absurd (by simpa using hek) (by simpa using hex e he)

theorem processDetections_keys_nodup (dets : List Detection) :
    ∀ (tr : List (Nat × TrackedObject)) (frame : Nat) (now : ℚ),
    (tr.map Prod.fst).Nodup →
    ((processDetections tr dets frame now).map Prod.fst).Nodup := by
  induction dets with
  | nil => intro tr frame now h; exact h
  | cons d ds ih =>
    intro tr frame now h
    rw [processDetections, List.foldl_cons]
    exact ih _ frame now (applyDetection_keys_nodup frame now tr d h)

theorem update_keys_nodup (t : ObjectTracker) (dets : List Detection)
    (hd : Bool) (now : ℚ) (h : (t.tracked_objects.map Prod.fst).Nodup) :
    (((t.update dets hd now).tracker.tracked_objects).map Prod.fst).Nodup := by
  simp only [ObjectTracker.update]
  have h1 := processDetections_keys_nodup dets t.tracked_objects
    (t.current_frame + 1) now h
  have h2 : ((processDetections t.tracked_objects dets (t.current_frame + 1)
      now).map (fun e =>
        if (dets.map (fun d => d.track_id)).contains e.1 then e
        else (e.1, e.2.mark_not_seen))).map Prod.fst =
      (processDetections t.tracked_objects dets (t.current_frame + 1)
        now).map Prod.fst := by
    apply map_fst_keyfix
    intro e
    by_cases hk : ((dets.map (fun d => d.track_id)).contains e.1) = true
    · rw [if_pos hk]
    · rw [if_neg hk]
  exact ((List.filter_sublist _).map Prod.fst).nodup (h2 ▸ h1)

theorem filter_key_eq_toList (id : Nat) :
    ∀ (l : List (Nat × TrackedObject)), (l.map Prod.fst).Nodup →
    l.filter (fun e => e.1 == id) = (l.find? (fun e => e.1 == id)).toList := by
  intro l
  induction l with
  | nil => intro _; rfl
  | cons a l ih =>
    intro hnd
    rw [List.map_cons, List.nodup_cons] at hnd
    obtain ⟨hna, hnd⟩ := hnd
    by_cases h : (a.1 == id) = true
    · have hf : List.find? (fun e => e.1 == id) (a :: l) = some a := by
        simp [List.find?, h]
      rw [List.filter_cons, if_pos h, hf]
      have ha : a.1 = id := by simpa using h
      have : l.filter (fun e => e.1 == id) = [] := by
        rw [List.filter_eq_nil_iff]
        intro e he hke
        exact hna (by
          rw [List.mem_map]
          exact ⟨e, he, by rw [ha]; simpa using hke⟩)
      rw [this]
      rfl
    · have hf : List.find? (fun e => e.1 == id) (a :: l) =
          List.find? (fun e => e.1 == id) l := by
        simp [List.find?, h]
      rw [List.filter_cons, if_neg h, hf]
      exact ih hnd

/-- The behavior of one update cycle on a track id that is not matched by
any detection of that cycle: the object (if any) is kept with its staleness
counter incremented when the incremented counter stays below the purge
threshold, and is removed from the ledger otherwise. -/
theorem filter_filter_comm {α : Type} (p q : α → Bool) (l : List α) :
    (l.filter p).filter q = (l.filter q).filter p := by
  induction l with
  | nil => rfl
  | cons a l ih =>
    by_cases hp : p a = true <;> by_cases hq : q a = true <;>
      simp [List.filter_cons, hp, hq, ih]

/-- The behavior of one update cycle on a track id that is not matched by
any detection of that cycle: the object (if any) is kept with its staleness
counter incremented when the incremented counter stays below the purge
threshold, and is removed from the ledger otherwise. -/
theorem update_findObj_unmatched (t : ObjectTracker) (dets : List Detection)
    (hd : Bool) (now : ℚ) (id : Nat)
    (hnd : (t.tracked_objects.map Prod.fst).Nodup)
    (hid : id ∉ dets.map (fun d => d.track_id)) :
    (t.update dets hd now).tracker.findObj id =
      match t.findObj id with
      | none => none
      | some o => if o.frames_since_seen + 1 < t.frames_before_purge
                  then some o.mark_not_seen else none := by
  have hseen : ((dets.map (fun d => d.track_id)).contains id) = false := by
    simpa using hid
  have hkeyfix : ∀ e : Nat × TrackedObject,
      ((fun e => if (dets.map (fun d => d.track_id)).contains e.1 then e
        else (e.1, e.2.mark_not_seen)) e).1 = e.1 := by
    intro e
    dsimp only
    by_cases hk : ((dets.map (fun d => d.track_id)).contains e.1) = true
    · rw [if_pos hk]
    · rw [if_neg hk]
  simp only [ObjectTracker.update, ObjectTracker.findObj]
  rw [find?_eq_head?_filter, filter_filter_comm,
    filter_key_map_keyfix id _ hkeyfix,
    processDetections_filter_not_mem dets t.tracked_objects
      (t.current_frame + 1) now id hid,
    filter_key_eq_toList id t.tracked_objects hnd]
  rcases hfo : t.tracked_objects.find? (fun e => e.1 == id) with _ | e
  · simp only [hfo, Option.toList_none, List.map_nil, List.filter_nil,
      List.head?_nil]
    rfl
  · have hek : e.1 = id := by
      have := List.find?_some hfo
      simpa using this
    simp only [hfo, Option.toList_some, List.map_cons, List.map_nil, hek, hseen,
      Bool.false_eq_true, if_false, List.filter_cons, List.filter_nil,
      TrackedObject.mark_not_seen, Option.map_some, Option.map_none]
    by_cases hlt : e.2.frames_since_seen + 1 < t.frames_before_purge
    · simp [hlt]
    · simp [hlt]

theorem update_matched_fss (t : ObjectTracker) (dets : List Detection)
    (hd : Bool) (now : ℚ) :
    ∀ e ∈ (t.update dets hd now).tracker.tracked_objects,
      e.1 ∈ dets.map (fun d => d.track_id) → e.2.frames_since_seen = 0 := by
  intro e he hk
  simp only [ObjectTracker.update] at he
  rw [List.mem_filter] at he
  obtain ⟨he, -⟩ := he
  rw [List.mem_map] at he
  obtain ⟨a, ha, hae⟩ := he
  have hkey : e.1 = a.1 := by
    rw [← hae]
    by_cases hc : ((dets.map (fun d => d.track_id)).contains a.1) = true
    · rw [if_pos hc]
    · rw [if_neg hc]
  have hmem : a.1 ∈ dets.map (fun d => d.track_id) := hkey ▸ hk
  have hcont : ((dets.map (fun d => d.track_id)).contains a.1) = true := by
    simpa using hmem
  have hea : e = a := by
    rw [← hae]
    rw [if_pos hcont]
  rw [hea]
  exact processDetections_fss dets t.tracked_objects (t.current_frame + 1)
    now a ha hmem

theorem runUpdates_fbp : ∀ (steps : List UpdateInput) (t : ObjectTracker),
    (t.runUpdates steps).frames_before_purge = t.frames_before_purge := by
  intro steps
  induction steps with
  | nil => intro t; rfl
  | cons s ss ih =>
    intro t
    rw [ObjectTracker.runUpdates, List.foldl_cons]
    rw [show ss.foldl (fun tr s => (tr.update s.dets s.hd s.now).tracker)
      ((t.update s.dets s.hd s.now).tracker) =
      ((t.update s.dets s.hd s.now).tracker).runUpdates ss from rfl]
    rw [ih]
    rfl

/-- C3: starting from a ledger where track id has a live object with a fresh
staleness counter, and running any sequence of update cycles none of which
matches that id: while fewer than frames_before_purge cycles have run the
object stays live with its counter equal to the number of elapsed unmatched
cycles, and from exactly frames_before_purge cycles on the object is gone
from the ledger and stays gone, so eviction happens exactly once, at the
frames_before_purge-th consecutive unmatched cycle and never before.
A matched cycle resets the counter to 0 (third conjunct). -/
theorem C3_eviction_discipline (t : ObjectTracker) (id : Nat)
    (o : TrackedObject) (steps : List UpdateInput)
    (hnd : (t.tracked_objects.map Prod.fst).Nodup)
    (hlive : t.findObj id = some o)
    (h0 : o.frames_since_seen = 0)
    (hthr : 1 ≤ t.frames_before_purge)
    (habs : ∀ s ∈ steps, id ∉ s.dets.map (fun d => d.track_id)) :
    (∀ k, k ≤ steps.length → k < t.frames_before_purge →
      ∃ o2, (t.runUpdates (steps.take k)).findObj id = some o2 ∧
        o2.frames_since_seen = k) ∧
    (∀ k, k ≤ steps.length → t.frames_before_purge ≤ k →
      (t.runUpdates (steps.take k)).findObj id = none) ∧
    (∀ (t2 : ObjectTracker) (dets : List Detection) (hd : Bool) (now : ℚ) e,
      e ∈ (t2.update dets hd now).tracker.tracked_objects →
      e.1 ∈ dets.map (fun d => d.track_id) → e.2.frames_since_seen = 0) := by
  have key : ∀ k, k ≤ steps.length →
      (((t.runUpdates (steps.take k)).tracked_objects.map Prod.fst).Nodup ∧
       ((k < t.frames_before_purge →
          ∃ o2, (t.runUpdates (steps.take k)).findObj id = some o2 ∧
            o2.frames_since_seen = k) ∧
        (t.frames_before_purge ≤ k →
          (t.runUpdates (steps.take k)).findObj id = none))) := by
    intro k
    induction k with
    | zero =>
      intro _
      refine ⟨by simpa [ObjectTracker.runUpdates] using hnd, ?_, ?_⟩
      · intro _
        exact ⟨o, by simpa [ObjectTracker.runUpdates] using hlive, h0⟩
      · intro hge
        omega
    | succ k ih =>
      intro hk1
      have hk : k ≤ steps.length := by omega
      obtain ⟨ihnd, ihlt, ihge⟩ := ih hk
      have hklt : k < steps.length := by omega
      have hsplit : t.runUpdates (steps.take (k + 1)) =
          (((t.runUpdates (steps.take k)).update (steps.get ⟨k, hklt⟩).dets
            (steps.get ⟨k, hklt⟩).hd (steps.get ⟨k, hklt⟩).now)).tracker := by
        rw [List.take_succ, ObjectTracker.runUpdates, List.foldl_append]
        rw [List.getElem?_eq_getElem hklt]
        rfl
      have hmemstep : steps.get ⟨k, hklt⟩ ∈ steps := List.get_mem steps k hklt
      have hstep := update_findObj_unmatched (t.runUpdates (steps.take k))
        (steps.get ⟨k, hklt⟩).dets (steps.get ⟨k, hklt⟩).hd
        (steps.get ⟨k, hklt⟩).now id ihnd (habs _ hmemstep)
      have hfbp : (t.runUpdates (steps.take k)).frames_before_purge =
          t.frames_before_purge := runUpdates_fbp _ t
      refine ⟨?_, ?_, ?_⟩
      · rw [hsplit]
        exact update_keys_nodup _ _ _ _ ihnd
      · intro hlt1
        obtain ⟨o2, ho2, hfss⟩ := ihlt (by omega)
        rw [hsplit, hstep, ho2]
        have hcnd : o2.frames_since_seen + 1 <
            (t.runUpdates (steps.take k)).frames_before_purge := by
          rw [hfss, hfbp]
          omega
        refine ⟨o2.mark_not_seen, ?_, by simp [TrackedObject.mark_not_seen, hfss]⟩
        dsimp only
        rw [if_pos hcnd]
      · intro hge1
        rcases Nat.lt_or_ge k t.frames_before_purge with hcase | hcase
        · obtain ⟨o2, ho2, hfss⟩ := ihlt hcase
          rw [hsplit, hstep, ho2]
          have hcnd : ¬ (o2.frames_since_seen + 1 <
              (t.runUpdates (steps.take k)).frames_before_purge) := by
            rw [hfss, hfbp]
            omega
          dsimp only
          rw [if_neg hcnd]
        · rw [hsplit, hstep, ihge hcase]
  exact ⟨fun k hk1 hk2 => ((key k hk1).2.1 hk2),
    fun k hk1 hk2 => ((key k hk1).2.2 hk2),
    update_matched_fss⟩

theorem map_congr_on {α β : Type} (f g : α → β) :
    ∀ (l : List α), (∀ a ∈ l, f a = g a) → l.map f = l.map g := by
  intro l
  induction l with
  | nil => intro _; rfl
  | cons a l ih =>
    intro h
    rw [List.map_cons, List.map_cons, h a (by simp),
      ih (fun e he => h e (by simp [he]))]

theorem sum_map_add {α : Type} (f g : α → Nat) :
    ∀ (l : List α),
    (l.map (fun a => f a + g a)).sum = (l.map f).sum + (l.map g).sum := by
  intro l
  induction l with
  | nil => rfl
  | cons a l ih =>
    simp only [List.map_cons, List.sum_cons, ih]
    omega

theorem sum_indicator_absent (x : Nat) :
    ∀ (ts : List Nat), x ∉ ts →
    (ts.map (fun c => if c == x then 1 else 0)).sum = 0 := by
  intro ts
  induction ts with
  | nil => intro _; rfl
  | cons a ts ih =>
    intro h
    rw [List.mem_cons] at h
    push_neg at h
    have hax : ¬ ((a == x) = true) := by
      simp
      exact fun he => h.1 he.symm
    simp only [List.map_cons, List.sum_cons]
    rw [if_neg hax, ih h.2]

theorem sum_indicator_nodup (x : Nat) :
    ∀ (ts : List Nat), ts.Nodup →
    (ts.map (fun c => if c == x then 1 else 0)).sum =
      if x ∈ ts then 1 else 0 := by
  intro ts
  induction ts with
  | nil => intro _; rfl
  | cons a ts ih =>
    intro hnd
    rw [List.nodup_cons] at hnd
    obtain ⟨hna, hnd⟩ := hnd
    simp only [List.map_cons, List.sum_cons]
    by_cases hax : (a == x) = true
    · have hax' : a = x := by simpa using hax
      subst hax'
      rw [sum_indicator_absent a ts hna, if_pos (List.mem_cons_self a ts)]
      simp
    · have hx : x ∈ a :: ts ↔ x ∈ ts := by
        rw [List.mem_cons]
        constructor
        · rintro (h | h)
          · exact absurd (by simp [h]) hax
          · exact h
        · exact Or.inr
      rw [if_neg hax, ih hnd, Nat.zero_add]
      simp only [hx]

theorem sum_count_eq_countP (targets : List Nat) (hnd : targets.Nodup) :
    ∀ (l : List Nat),
    (targets.map (fun c => l.count c)).sum =
      l.countP (fun c => decide (c ∈ targets)) := by
  intro l
  induction l with
  | nil => simp
  | cons x l ih =>
    rw [List.countP_cons]
    have hmap : targets.map (fun c => (x :: l).count c) =
        targets.map (fun c => l.count c + if c == x then 1 else 0) := by
      apply map_congr_on
      intro c _
      rw [List.count_cons]
      by_cases hcx : c = x
      · subst hcx
        rfl
      · have h1 : (x == c) = false := by
          simp
          exact fun h => hcx h.symm
        have h2 : (c == x) = false := by
          simp
          exact hcx
        rw [h1, h2]
    rw [hmap, sum_map_add, ih, sum_indicator_nodup x targets hnd]
    simp

theorem sum_map_count_div (targets : List Nat) (l : List Nat) (d : ℚ) :
    (targets.map (fun c => ((l.count c : Nat) : ℚ) / d * 100)).sum =
      (((targets.map (fun c => l.count c)).sum : Nat) : ℚ) / d * 100 := by
  induction targets with
  | nil => simp
  | cons a ts ih =>
    simp only [List.map_cons, List.sum_cons, ih]
    push_cast
    ring

/-- The class filter quantity of the purge step, rephrased the way the spec
states it: the fraction of the class history lying in the target set, as a
percentage.  Needs the configured target list to be duplicate-free. -/
theorem totalTargetPercentage_eq (targets : List Nat) (hnd : targets.Nodup)
    (o : TrackedObject) :
    totalTargetPercentage targets o =
      ((o.class_ids.countP (fun c => decide (c ∈ targets)) : Nat) : ℚ) /
        (o.class_ids.length : ℚ) * 100 := by
  rw [totalTargetPercentage]
  by_cases hnil : o.class_ids = []
  · simp [hnil, TrackedObject.get_class_percentage]
  · have hmap : targets.map (fun c => o.get_class_percentage c) =
        targets.map (fun c =>
          ((o.class_ids.count c : Nat) : ℚ) / (o.class_ids.length : ℚ) * 100) := by
      apply map_congr_on
      intro c _
      rw [TrackedObject.get_class_percentage, if_neg hnil]
    rw [hmap, sum_map_count_div, sum_count_eq_countP targets hnd]

theorem eq_of_keys_nodup :
    ∀ (l : List (Nat × TrackedObject)), (l.map Prod.fst).Nodup →
    ∀ e ∈ l, ∀ e2 ∈ l, e.1 = e2.1 → e = e2 := by
  intro l
  induction l with
  | nil => intro _ e he; simp at he
  | cons a l ih =>
    intro hnd e he e2 he2 hk
    rw [List.map_cons, List.nodup_cons] at hnd
    obtain ⟨hna, hnd⟩ := hnd
    rw [List.mem_cons] at he he2
    rcases he with he | he <;> rcases he2 with he2 | he2
    · rw [he, he2]
    · subst he
      exact absurd (List.mem_map.mpr ⟨e2, he2, hk.symm⟩) hna
    · subst he2
      exact absurd (List.mem_map.mpr ⟨e, he, hk⟩) hna
    · exact ih hnd e he e2 he2 hk

/-- C4: when a purge happens with a callback configured, the purged object
is handed to the callback exactly when the percentage of its class history
lying in the (duplicate-free) target set reaches min_class_percentage, and
in every case the purged track id is no longer in the live set. -/
theorem C4_class_filter (t : ObjectTracker) (dets : List Detection)
    (hd : Bool) (now : ℚ) (e : Nat × TrackedObject)
    (hcb : t.has_callback = true)
    (htnd : t.target_class_ids.Nodup)
    (hknd : (t.tracked_objects.map Prod.fst).Nodup)
    (hp : e ∈ (t.update dets hd now).purged) :
    (e ∈ (t.update dets hd now).notified ↔
      t.min_class_percentage ≤
        ((e.2.class_ids.countP
            (fun c => decide (c ∈ t.target_class_ids)) : Nat) : ℚ) /
          (e.2.class_ids.length : ℚ) * 100) ∧
    (∀ e2 ∈ (t.update dets hd now).tracker.tracked_objects, e2.1 ≠ e.1) := by
  constructor
  · simp only [ObjectTracker.update] at hp ⊢
    rw [hcb, if_pos rfl, List.mem_filter]
    constructor
    · rintro ⟨-, hdec⟩
      rw [← totalTargetPercentage_eq t.target_class_ids htnd e.2]
      exact of_decide_eq_true hdec
    · intro hle
      refine ⟨hp, ?_⟩
      rw [decide_eq_true_eq,
        totalTargetPercentage_eq t.target_class_ids htnd e.2]
      exact hle
  · intro e2 he2 hk2
    simp only [ObjectTracker.update] at hp he2
    rw [List.mem_filter] at hp he2
    have h1nd := processDetections_keys_nodup dets t.tracked_objects
      (t.current_frame + 1) now hknd
    have h2nd : (((processDetections t.tracked_objects dets
        (t.current_frame + 1) now).map
        (fun e => if (dets.map (fun d => d.track_id)).contains e.1 then e
          else (e.1, e.2.mark_not_seen))).map Prod.fst).Nodup := by
      rw [map_fst_keyfix _ (fun e => by
        by_cases hk : ((dets.map (fun d => d.track_id)).contains e.1) = true
        · rw [if_pos hk]
        · rw [if_neg hk])]
      exact h1nd
    have heq := eq_of_keys_nodup _ h2nd e hp.1 e2 he2.1 hk2.symm
    have hc1 := hp.2
    have hc2 := he2.2
    rw [← heq] at hc2
    simp only [Bool.and_eq_true, Bool.or_eq_true, decide_eq_true_eq,
      Bool.not_eq_true'] at hc1 hc2
    rcases hc2 with hc2 | hc2
    · rw [hc1.1] at hc2
      exact absurd hc2 (by simp)
    · omega

/-- A ledger holding one fresh object under track id 5, with purge threshold
2, used by the C3 witness. -/
def oC3 : TrackedObject :=
  { track_id := 5, first_seen := 0, last_seen := 0, frames_since_seen := 0,
    boxes := [boxW], class_ids := [2], frame_ids := [1] }

def tC3 : ObjectTracker :=
  { target_class_ids := [2], frames_before_purge := 2, has_callback := false,
    min_class_percentage := 50, tracked_objects := [(5, oC3)],
    current_frame := 1, hd_frames := [] }

/-- C3 witness: with purge threshold 2 and two unmatched cycles, the object
is still live with counter 1 after the first cycle and gone after the
second. -/
theorem C3_eviction_discipline_witness :
    (∃ o2, (tC3.runUpdates ([{ dets := [], hd := false, now := 0 },
        { dets := [], hd := false, now := 0 }].take 1)).findObj 5 = some o2 ∧
      o2.frames_since_seen = 1) ∧
    (tC3.runUpdates [{ dets := [], hd := false, now := 0 },
      { dets := [], hd := false, now := 0 }]).findObj 5 = none := by
  have h := C3_eviction_discipline tC3 5 oC3
    [{ dets := [], hd := false, now := 0 }, { dets := [], hd := false, now := 0 }]
    (by decide) rfl rfl (by decide) (by decide)
  refine ⟨h.1 1 (by decide) (by decide), ?_⟩
  have h2 := h.2.1 2 (by decide) (by decide)
  simpa using h2

/-- An object classified as the target class in 3 of its 10 frames, about to
be purged (threshold 1), with the class filter at 50 percent. -/
def oC4 : TrackedObject :=
  { track_id := 9, first_seen := 0, last_seen := 0, frames_since_seen := 0,
    boxes := [boxW], class_ids := [2, 2, 2, 1, 1, 1, 1, 1, 1, 1],
    frame_ids := [] }

def oC4m : TrackedObject :=
  { track_id := 9, first_seen := 0, last_seen := 0, frames_since_seen := 1,
    boxes := [boxW], class_ids := [2, 2, 2, 1, 1, 1, 1, 1, 1, 1],
    frame_ids := [] }

def tC4 : ObjectTracker :=
  { target_class_ids := [2], frames_before_purge := 1, has_callback := true,
    min_class_percentage := 50, tracked_objects := [(9, oC4)],
    current_frame := 0, hd_frames := [] }

/-- C4 witness: the 30 percent object is purged from the ledger but the
eviction callback is not invoked. -/
theorem C4_class_filter_witness :
    (9, oC4m) ∈ (tC4.update [] false 0).purged ∧
    (9, oC4m) ∉ (tC4.update [] false 0).notified := by
  have hp : (9, oC4m) ∈ (tC4.update [] false 0).purged := by decide
  have h := C4_class_filter tC4 [] false 0 (9, oC4m) rfl (by decide) (by decide) hp
  refine ⟨hp, fun hmem => ?_⟩
  have hle := h.1.mp hmem
  rw [show ((9, oC4m).2.class_ids.countP
      (fun c => decide (c ∈ tC4.target_class_ids))) = 3 from by decide] at hle
  rw [show ((9, oC4m).2.class_ids.length) = 10 from by decide] at hle
  norm_num [tC4] at hle

/-- One outcome of the blocking read of frame_size bytes from the decoder
process (src/ffmpeg_capture.py, line 152): a full-size frame, a short read
(the pipe reached EOF, which means the decoder process has exited), or an
exception raised while reading.  Frame payloads are abstracted to Nat. -/
inductive ReadOutcome where
  | frame (payload : Nat)
  | shortRead
  | readError
deriving Repr, DecidableEq

/-- The retry configuration of the capture (src/ffmpeg_capture.py,
lines 15-24): max_retries of none means unlimited retries. -/
structure CaptureConfig where
  max_retries : Option Nat
  retry_delay : ℚ
deriving Repr, DecidableEq

/-- The state of the background read loop together with the frame queue and
the liveness of the decoder process (src/ffmpeg_capture.py, lines 144-148
for the loop locals; restarts counts the _restart_stream calls; stopped
records that the loop has exited through break). -/
structure CaptureState where
  retry_count : Nat
  current_retry_delay : ℚ
  restarts : Nat
  process_alive : Bool
  frame_queue : List Nat
  stopped : Bool
deriving Repr, DecidableEq

/-- The loop state on entry of _read_frames with a live decoder process. -/
def initCaptureState (cfg : CaptureConfig) : CaptureState :=
  { retry_count := 0, current_retry_delay := cfg.retry_delay, restarts := 0,
    process_alive := true, frame_queue := [], stopped := false }

/-- The drop-oldest enqueue of a decoded frame (src/ffmpeg_capture.py,
lines 199-206): the queue has maxsize 2; when full the oldest entry is
discarded before the new frame is appended. -/
def pushFrame (q : List Nat) (f : Nat) : List Nat :=
  (if 2 ≤ q.length then q.drop 1 else q) ++ [f]

/-- The retry-exhaustion test (src/ffmpeg_capture.py, lines 161 and 216):
true when a maximum is configured and retry_count has reached it. -/
def retriesExhausted (cfg : CaptureConfig) (s : CaptureState) : Bool :=
  match cfg.max_retries with
  | none => false
  | some m => decide (m ≤ s.retry_count)

/-- The shared failure path (src/ffmpeg_capture.py, lines 153-184 and
208-235): when retries are exhausted the loop breaks, leaving the process as
it is; otherwise the stale process is terminated, the loop sleeps for the
current delay, increments the retry counter, multiplies the delay by 1.5
capping at 30 seconds, and restarts the decoder. -/
def handleFailure (cfg : CaptureConfig) (s : CaptureState) : CaptureState :=
  if retriesExhausted cfg s then { s with stopped := true }
  else
    { s with
      process_alive := true
      retry_count := s.retry_count + 1
      current_retry_delay := min (s.current_retry_delay * (3/2)) 30
      restarts := s.restarts + 1 }

/-- One iteration of the read loop (src/ffmpeg_capture.py, lines 150-235):
a full read resets the retry counter and delay and enqueues the frame; a
short read implies decoder EOF (dead process) and takes the failure path;
an exception takes the same failure path. -/
def captureStep (cfg : CaptureConfig) (s : CaptureState) :
    ReadOutcome → CaptureState
  | .frame f =>
    if s.stopped then s
    else
      { s with
        retry_count := 0
        current_retry_delay := cfg.retry_delay
        frame_queue := pushFrame s.frame_queue f }
  | .shortRead =>
    if s.stopped then s
    else handleFailure cfg { s with process_alive := false }
  | .readError =>
    if s.stopped then s
    else handleFailure cfg s

/-- The read loop over a sequence of read outcomes. -/
def runCapture (cfg : CaptureConfig) (s : CaptureState)
    (outs : List ReadOutcome) : CaptureState :=
  outs.foldl (captureStep cfg) s

/-- FFmpegCapture.isOpened (src/ffmpeg_capture.py, lines 237-239): the
process exists and has not exited. -/
def isOpened (s : CaptureState) : Bool := s.process_alive

/-- FFmpegCapture.grab (src/ffmpeg_capture.py, lines 241-243). -/
def grab (s : CaptureState) : Bool := !s.frame_queue.isEmpty

/-- FFmpegCapture.retrieve (src/ffmpeg_capture.py, lines 245-251): a bounded
wait on the queue, returning (False, None) when nothing arrives; consuming
the head otherwise.  It never throws: the Empty case is caught. -/
def retrieve (s : CaptureState) : (Bool × Option Nat) × CaptureState :=
  match s.frame_queue with
  | [] => ((false, none), s)
  | f :: rest => ((true, some f), { s with frame_queue := rest })

theorem captureStep_stopped (cfg : CaptureConfig) (s : CaptureState)
    (h : s.stopped = true) : ∀ o, captureStep cfg s o = s := by
  intro o
  cases o <;> simp [captureStep, h]

theorem runCapture_stopped (cfg : CaptureConfig) (s : CaptureState)
    (h : s.stopped = true) : ∀ outs, runCapture cfg s outs = s := by
  intro outs
  induction outs with
  | nil => rfl
  | cons o os ih =>
    rw [runCapture, List.foldl_cons, captureStep_stopped cfg s h o]
    exact ih

/-- The capture configuration and terminal state of the C7 scenario. -/
def cfgC7 : CaptureConfig := { max_retries := some 2, retry_delay := 2 }

def runC7 : CaptureState :=
  runCapture cfgC7 (initCaptureState cfgC7)
    [ReadOutcome.shortRead, ReadOutcome.shortRead, ReadOutcome.shortRead]

/-- C7: with max_retries = 2, three consecutive short reads make exactly 2
restart attempts, after which the loop has terminally stopped, the decoder
process is dead so isOpened is false, the loop ignores any further
outcomes, and grab and retrieve report failure without raising. -/
theorem C7_max_retries_terminal :
    runC7.restarts = 2 ∧
    runC7.stopped = true ∧
    isOpened runC7 = false ∧
    grab runC7 = false ∧
    (retrieve runC7).1 = (false, none) ∧
    (∀ outs, runCapture cfgC7 runC7 outs = runC7) := by
  refine ⟨by decide, by decide, by decide, by decide, by decide, ?_⟩
  exact runCapture_stopped cfgC7 runC7 (by decide)

/-- C8: while the loop is running, a full-size read resets the retry counter
to 0 and the delay to the constructor-supplied initial value, and every
failed read attempt that still has retries left updates the delay to
min(delay * 1.5, 30) before performing its restart. -/
theorem C8_backoff_and_reset (cfg : CaptureConfig) (s : CaptureState)
    (f : Nat) (hrun : s.stopped = false) :
    ((captureStep cfg s (ReadOutcome.frame f)).retry_count = 0 ∧
     (captureStep cfg s (ReadOutcome.frame f)).current_retry_delay =
       cfg.retry_delay) ∧
    (∀ o, (o = ReadOutcome.shortRead ∨ o = ReadOutcome.readError) →
      (∀ m, cfg.max_retries = some m → s.retry_count < m) →
      (captureStep cfg s o).current_retry_delay =
        min (s.current_retry_delay * (3/2)) 30 ∧
      (captureStep cfg s o).restarts = s.restarts + 1 ∧
      (captureStep cfg s o).retry_count = s.retry_count + 1) := by
  have hns : ¬ (s.stopped = true) := by
    rw [hrun]
    simp
  constructor
  · rw [captureStep, if_neg hns]
    exact ⟨rfl, rfl⟩
  · intro o ho hm
    have hex : retriesExhausted cfg s = false := by
      rw [retriesExhausted]
      rcases hmr : cfg.max_retries with _ | m
      · rfl
      · simp
        exact hm m hmr
    rcases ho with ho | ho <;> subst ho
    · have hex2 : retriesExhausted cfg { s with process_alive := false } = false :=
        hex
      rw [captureStep, if_neg hns, handleFailure,
        if_neg (by rw [hex2]; simp)]
      exact ⟨rfl, rfl, rfl⟩
    · rw [captureStep, if_neg hns, handleFailure,
        if_neg (by rw [hex]; simp)]
      exact ⟨rfl, rfl, rfl⟩

def cfgC8 : CaptureConfig := { max_retries := some 5, retry_delay := 2 }

/-- C8 witness: from the initial loop state, a full read keeps the counter
at 0 and the delay at the initial 2 seconds, and a short read bumps the
delay to min(2 * 1.5, 30) = 3 while performing restart number 1. -/
theorem C8_backoff_and_reset_witness :
    (captureStep cfgC8 (initCaptureState cfgC8)
      (ReadOutcome.frame 0)).retry_count = 0 ∧
    (captureStep cfgC8 (initCaptureState cfgC8)
      (ReadOutcome.frame 0)).current_retry_delay = cfgC8.retry_delay ∧
    (captureStep cfgC8 (initCaptureState cfgC8)
      ReadOutcome.shortRead).current_retry_delay = 3 ∧
    (captureStep cfgC8 (initCaptureState cfgC8)
      ReadOutcome.shortRead).restarts = 1 := by
  have h := C8_backoff_and_reset cfgC8 (initCaptureState cfgC8) 0 rfl
  have h2 := h.2 ReadOutcome.shortRead (Or.inl rfl)
    (fun m hm => by
      have hm5 : m = 5 := by
        have : (some 5 : Option Nat) = some m := hm
        injection this with h5
        omega
      rw [hm5]
      decide)
  refine ⟨h.1.1, h.1.2, ?_, ?_⟩
  · rw [h2.1]
    norm_num [initCaptureState, cfgC8]
  · rw [h2.2.1]
    decide

end MyALPR
